import Mathlib

/-!
Verification development for the ImageSniffer core: a shallow embedding of
the LogBins histogram (src/bins.py), the Registers / Counter / Latch
statistics (src/registers.py), the Octant partitioner (src/octant.py) and the
per-frame characterization driver (src/frame_c18n.py), together with theorems
settling the specification claims about them.

Modelling conventions.
Pixel-channel samples are rationals (the source works on floating-point
arrays; the claims under study are about control flow, counting and exact
interval arithmetic, not rounding).  `LogBins.add_entry` in the source first
computes `log_value = log10(value)` and all of its subsequent logic depends on
the input only through that base-10 logarithm; since `log10` is a strictly
monotone bijection from the positive reals onto the reals, the embedding takes
the log-magnitude `log_value` directly as its argument and translates the rest
of the method verbatim.  Likewise `LogBins.bin_bounds` in the source returns
`(10 ** a, 10 ** b)` for inverse-interpolated exponents `a` and `b`; the
embedding returns the exponent pair `(a, b)`, related to the source value by
the strictly monotone bijection `10 ** _`.  Python exceptions are modelled
with `Except String`: `numpy`'s rejection of a negative array dimension in the
constructor and the `IndexError` of an out-of-range bin increment.  Python's
negative-index wrap-around on `self._bins[ix] += 1` is modelled faithfully in
`pyIncAt`.
-/

/-- Embeds `lerp` (src/bins.py line 60): linear interpolation of `x` from the
domain `[min_domain, max_domain]` onto the range `[min_range, max_range]`. -/
def lerp (x min_domain max_domain min_range max_range : ℚ) : ℚ :=
  min_range + (max_range - min_range) * (x - min_domain) / (max_domain - min_domain)

/-- State of a `LogBins` instance (src/bins.py lines 64-74): configuration
exponents, overflow/underflow counters and the per-bin counts.  The unused
`_epsilon` attribute (written in the constructor, never read) is omitted. -/
structure LogBins where
  log_max : ℚ
  log_min : ℚ
  num_underflowed : ℕ
  num_overflowed : ℕ
  bins : List ℕ
deriving DecidableEq, Repr

/-- Embeds `LogBins.__init__` (src/bins.py lines 66-74) with an explicit
`num_bins` argument.  The source performs no validation of its own;
`np.zeros(num_bins)` raises `ValueError` exactly when `num_bins` is negative,
and otherwise yields `num_bins` zero-initialized bins. -/
def LogBins.init (log_max log_min : ℚ) (num_bins : ℤ) : Except String LogBins :=
  if num_bins < 0 then
    .error "ValueError: negative dimensions are not allowed"
  else
    .ok { log_max := log_max, log_min := log_min, num_underflowed := 0,
          num_overflowed := 0, bins := List.replicate num_bins.toNat 0 }

/-- Embeds `LogBins.ix_for_value` (src/bins.py lines 76-81): lerp the
log-magnitude from the reversed domain `[log_max, log_min]` onto
`[0, num_bins]`, decrementing a result that lands exactly on `num_bins`. -/
def LogBins.ix_for_value (b : LogBins) (value : ℚ) : ℚ :=
  let lerped := lerp value b.log_max b.log_min 0 (b.bins.length : ℚ)
  if lerped = (b.bins.length : ℚ) then lerped - 1 else lerped

/-- Embeds `LogBins.value_for_ix` (src/bins.py lines 83-84): the inverse
interpolation, from `[0, num_bins]` back onto `[log_max, log_min]`. -/
def LogBins.value_for_ix (b : LogBins) (ix : ℚ) : ℚ :=
  lerp ix 0 (b.bins.length : ℚ) b.log_max b.log_min

/-- Python's index normalization for sequences: a negative index counts back
from the end of the list. -/
def pyWrapIx (l : List ℕ) (ix : ℤ) : ℤ :=
  if ix < 0 then ix + (l.length : ℤ) else ix

/-- Python list/array indexing semantics for `self._bins[ix] += 1`
(src/bins.py line 96): a negative index wraps once by the length; an index
outside `[-len, len)` raises `IndexError` (modelled as `none`). -/
def pyIncAt (l : List ℕ) (ix : ℤ) : Option (List ℕ) :=
  if 0 ≤ pyWrapIx l ix ∧ pyWrapIx l ix < (l.length : ℤ) then
    some (l.set (pyWrapIx l ix).toNat (l.getD (pyWrapIx l ix).toNat 0 + 1))
  else
    none

/-- Embeds `LogBins.add_entry` (src/bins.py lines 86-97).  The source first
computes `log_value = log10(value)`; the embedding receives that log-magnitude
directly (see the module comment) and performs the same three-way branch:
overflow above `log_max`, underflow at or below `log_min`, and otherwise an
increment of the floored interpolated bin index (the source's local `ix`,
written out twice here), which is also returned. -/
def LogBins.add_entry (b : LogBins) (log_value : ℚ) : Except String (LogBins × Option ℤ) :=
  if log_value > b.log_max then
    .ok ({ b with num_overflowed := b.num_overflowed + 1 }, none)
  else if log_value ≤ b.log_min then
    .ok ({ b with num_underflowed := b.num_underflowed + 1 }, none)
  else
    match pyIncAt b.bins (b.ix_for_value log_value).floor with
    | some new_bins => .ok ({ b with bins := new_bins }, some (b.ix_for_value log_value).floor)
    | none => .error "IndexError: index out of bounds"

/-- Embeds `LogBins.bin_bounds` (src/bins.py lines 99-104).  The source
asserts `0 <= ix < len(self._bins)` (and integrality of `ix`, which the `ℤ`
type provides) and returns `(10 ** value_for_ix ix, 10 ** value_for_ix
(ix+1))`; the embedding returns the two exponents (see module comment). -/
def LogBins.bin_bounds (b : LogBins) (ix : ℤ) : Except String (ℚ × ℚ) :=
  if 0 ≤ ix ∧ ix < (b.bins.length : ℤ) then
    .ok (b.value_for_ix (ix : ℚ), b.value_for_ix ((ix : ℚ) + 1))
  else
    .error "AssertionError"

/-- The quantity `overflow + underflow + sum of per-bin counts` of claim C1. -/
def LogBins.counter_sum (b : LogBins) : ℕ :=
  b.num_overflowed + b.num_underflowed + b.bins.sum

/-- A finite sequence of `add_entry` calls (log-magnitudes), stopping at the
first raised exception, as Python execution would. -/
def LogBins.process : LogBins → List ℚ → Except String LogBins
  | b, [] => .ok b
  | b, lv :: rest =>
    match b.add_entry lv with
    | .ok (b', _) => b'.process rest
    | .error e => .error e

/-- The bin-selection function exactly as claim C2 words it: overflow above
`max_exponent`, underflow at or below `min_exponent`, otherwise linear
interpolation from the reversed domain `[max_exponent, min_exponent]` onto
`[0, num_bins]`, floored to an integer index, an index landing exactly on
`num_bins` clamped down to `num_bins - 1`, that bin incremented and the index
returned. -/
def LogBins.add_entry_claim (b : LogBins) (log_value : ℚ) : Except String (LogBins × Option ℤ) :=
  if log_value > b.log_max then
    .ok ({ b with num_overflowed := b.num_overflowed + 1 }, none)
  else if log_value ≤ b.log_min then
    .ok ({ b with num_underflowed := b.num_underflowed + 1 }, none)
  else
    match (if (lerp log_value b.log_max b.log_min 0 (b.bins.length : ℚ)).floor = (b.bins.length : ℤ)
           then (lerp log_value b.log_max b.log_min 0 (b.bins.length : ℚ)).floor - 1
           else (lerp log_value b.log_max b.log_min 0 (b.bins.length : ℚ)).floor) with
    | ix => .ok ({ b with bins := b.bins.set ix.toNat (b.bins.getD ix.toNat 0 + 1) }, some ix)

deriving instance DecidableEq for Except

/-- A tristimulus pixel: an ordered triple of channel samples (R, G, B). -/
abbrev Pixel := ℚ × ℚ × ℚ

/-- An octant key (src/octant.py): one boolean per channel, true meaning the
channel is negative in that octant. -/
abbrev OctantKey := Bool × Bool × Bool

/-- `np.finfo(np.half).max`, the largest finite half-float, used by
src/registers.py as the positive clip sentinel. -/
def half_max_q : ℚ := 65504

/-- `np.finfo(np.half).min`, the most negative finite half-float, used by
src/registers.py as the negative clip sentinel. -/
def half_min_q : ℚ := -65504

/-- Embeds `is_black_pixel` (src/registers.py line 37): all channels zero. -/
def is_black_pixel (p : Pixel) : Bool :=
  decide (p.1 = 0 ∧ p.2.1 = 0 ∧ p.2.2 = 0)

/-- Embeds `is_negative_clip_component` (src/registers.py line 52). -/
def is_negative_clip_component (v : ℚ) : Bool :=
  decide (v = half_min_q)

/-- Embeds `is_zero_component` (src/registers.py line 56). -/
def is_zero_component (v : ℚ) : Bool :=
  decide (v = 0)

/-- Embeds `is_positive_clip_component` (src/registers.py line 60). -/
def is_positive_clip_component (v : ℚ) : Bool :=
  decide (v = half_max_q)

/-- Embeds `strictly_negative_but_not_clipped_inverse_mask`
(src/registers.py line 64): strictly negative and above the negative clip. -/
def strictly_negative_but_not_clipped_inverse_mask (v : ℚ) : Bool :=
  decide (half_min_q < v) && decide (v < 0)

/-- Embeds `strictly_positive_but_not_clipped_inverse_mask`
(src/registers.py line 80): strictly positive and below the positive clip. -/
def strictly_positive_but_not_clipped_inverse_mask (v : ℚ) : Bool :=
  decide (0 < v) && decide (v < half_max_q)

/-- Embeds `biggest_strictly_negative_non_clipping_value` (src/registers.py
lines 68-71): select the qualifying values; if any selected entry is nonzero
(`np.any` truthiness — equivalent to nonemptiness here, because selected
values are strictly negative) return their minimum, else fall through to
Python's implicit `None`. -/
def biggest_strictly_negative_non_clipping_value (vs : List ℚ) : Option ℚ :=
  if (vs.filter strictly_negative_but_not_clipped_inverse_mask).any (fun v => decide (v ≠ 0)) then
    (vs.filter strictly_negative_but_not_clipped_inverse_mask).min?
  else none

/-- Embeds `tiniest_strictly_negative_non_clipping_value` (src/registers.py
lines 74-77): as above, but returning the maximum (closest to zero). -/
def tiniest_strictly_negative_non_clipping_value (vs : List ℚ) : Option ℚ :=
  if (vs.filter strictly_negative_but_not_clipped_inverse_mask).any (fun v => decide (v ≠ 0)) then
    (vs.filter strictly_negative_but_not_clipped_inverse_mask).max?
  else none

/-- Embeds `tiniest_strictly_positive_non_clipping_value` (src/registers.py
lines 84-87). -/
def tiniest_strictly_positive_non_clipping_value (vs : List ℚ) : Option ℚ :=
  if (vs.filter strictly_positive_but_not_clipped_inverse_mask).any (fun v => decide (v ≠ 0)) then
    (vs.filter strictly_positive_but_not_clipped_inverse_mask).min?
  else none

/-- Embeds `biggest_strictly_positive_non_clipping_value` (src/registers.py
lines 90-93). -/
def biggest_strictly_positive_non_clipping_value (vs : List ℚ) : Option ℚ :=
  if (vs.filter strictly_positive_but_not_clipped_inverse_mask).any (fun v => decide (v ≠ 0)) then
    (vs.filter strictly_positive_but_not_clipped_inverse_mask).max?
  else none

/-- The pixels selected by a boolean inclusion mask, i.e. `img[inv_mask]`
for a mask matched in shape to the image. -/
def maskedPixels (img : List Pixel) (inv_mask : List Bool) : List Pixel :=
  ((img.zip inv_mask).filter (fun pm => pm.2)).map (fun pm => pm.1)

/-- Channel projection `pixel[..., channel]`.  The data model is fixed
3-channel tristimulus; an index beyond 2 (which numpy would reject) is mapped
to the last channel and never arises for the 3-channel specs used here. -/
def channel_val (c : ℕ) (p : Pixel) : ℚ :=
  match c with
  | 0 => p.1
  | 1 => p.2.1
  | _ => p.2.2

/-- A whole-pixel `Counter` (src/registers.py lines 104-137, constructed with
`channel=None`).  Python's untyped predicate argument is split into two typed
structures, one for whole-pixel counters and one for per-channel counters.
`count` starts as Python `None`. -/
structure PixelCounter where
  desc : String
  label : String
  pred : Pixel → Bool
  count : Option ℕ

/-- A per-channel `Counter` (src/registers.py lines 104-140, constructed with
an explicit channel index). -/
structure ChannelCounter where
  desc : String
  label : String
  pred : ℚ → Bool
  channel : ℕ
  count : Option ℕ

/-- A `Latch` (src/registers.py lines 153-175): an extremum function, a
channel, a values-examined count and the held value.  `latched_value` starts
as the Python integer `0` and is overwritten by the extremum function's
result, which is `None` exactly when no qualifying value was seen. -/
structure Latch where
  desc : String
  label : String
  func : List ℚ → Option ℚ
  channel : ℕ
  values_examined_count : ℕ
  latched_value : Option ℚ

/-- A `Registers` group (src/registers.py lines 191-236).  The source keeps
the counters and latches in `OrderedDict`s keyed by their names; the
embedding keeps them as lists in the same insertion order (the keys are
distinct for distinct channel names). -/
structure Registers where
  desc : String
  domain : String
  channel_names : List String
  pixel_counters : List PixelCounter
  channel_counters : List ChannelCounter
  latches : List Latch

/-- Embeds `Registers._setup_pixel_counters` (src/registers.py lines
238-244). -/
def setup_pixel_counters (domain : String) : List PixelCounter :=
  [("black pixel count", "blk", is_black_pixel)].map (fun t =>
    { desc := t.1, label := domain ++ "_" ++ t.2.1, pred := t.2.2, count := none })

/-- Embeds `Registers._setup_channel_counters` (src/registers.py lines
246-254): three predicates, replicated once per channel. -/
def setup_channel_counters (domain : String) (channel_names : List String) : List ChannelCounter :=
  ([("negative clip", "nclp", is_negative_clip_component),
    ("zero", "zero", is_zero_component),
    ("positive clip", "pclp", is_positive_clip_component)]).flatMap (fun t =>
    channel_names.enum.map (fun cn =>
      { desc := t.1 ++ "_" ++ cn.2, label := domain ++ "_" ++ t.2.1 ++ "_" ++ cn.2,
        pred := t.2.2, channel := cn.1, count := none }))

/-- Embeds `Registers._setup_channel_latches` (src/registers.py lines
256-265): four extremum functions, replicated once per channel. -/
def setup_channel_latches (domain : String) (channel_names : List String) : List Latch :=
  ([("biggest strictly negative value", "nbig", biggest_strictly_negative_non_clipping_value),
    ("tiniest strictly negative value", "ntin", tiniest_strictly_negative_non_clipping_value),
    ("tiniest strictly positive value", "ptin", tiniest_strictly_positive_non_clipping_value),
    ("biggest strictly positive value", "pbig", biggest_strictly_positive_non_clipping_value)]).flatMap (fun t =>
    channel_names.enum.map (fun cn =>
      { desc := t.1 ++ " " ++ cn.2, label := domain ++ "_" ++ t.2.1 ++ "_" ++ cn.2,
        func := t.2.2, channel := cn.1, values_examined_count := 0, latched_value := some 0 }))

/-- Embeds `Registers.__init__` (src/registers.py lines 227-236). -/
def Registers.init (desc domain : String) (channel_names : List String) : Registers :=
  { desc := desc, domain := domain, channel_names := channel_names,
    pixel_counters := setup_pixel_counters domain,
    channel_counters := setup_channel_counters domain channel_names,
    latches := setup_channel_latches domain channel_names }

/-- Embeds `Counter.tally_pixels` (src/registers.py lines 124-137): the count
becomes the number of masked pixels satisfying the whole-pixel predicate. -/
def PixelCounter.tally_pixels (c : PixelCounter) (img : List Pixel) (inv_mask : List Bool) : PixelCounter :=
  { c with count := some ((maskedPixels img inv_mask).countP c.pred) }

/-- Embeds `Counter.tally_channel_values` (src/registers.py lines 139-140). -/
def ChannelCounter.tally_channel_values (c : ChannelCounter) (img : List Pixel) (inv_mask : List Bool) : ChannelCounter :=
  { c with count := some (((maskedPixels img inv_mask).map (channel_val c.channel)).countP c.pred) }

/-- Embeds `Latch.latch_max_channel_value` (src/registers.py lines 174-175):
the held value becomes the extremum function applied to the masked channel
values. -/
def Latch.latch_max_channel_value (l : Latch) (img : List Pixel) (inv_mask : List Bool) : Latch :=
  { l with latched_value := l.func ((maskedPixels img inv_mask).map (channel_val l.channel)) }

/-- Embeds `Registers.tally` (src/registers.py lines 267-283): every counter
is tallied against the masked image, and every latch gets its values-examined
count set to `np.sum(inv_mask)` (the number of masked pixels) and its held
value recomputed. -/
def Registers.tally (r : Registers) (img : List Pixel) (inv_mask : List Bool) : Registers :=
  { r with
    pixel_counters := r.pixel_counters.map (fun c => c.tally_pixels img inv_mask),
    channel_counters := r.channel_counters.map (fun c => c.tally_channel_values img inv_mask),
    latches := r.latches.map (fun l =>
      { l.latch_max_channel_value img inv_mask with values_examined_count := inv_mask.count true }) }

/-- Embeds `Octant.keys` (src/octant.py lines 54-61): all 8 sign patterns, the
red flag varying fastest as in the source's nested loops. -/
def Octant.keys : List OctantKey :=
  [false, true].flatMap (fun has_blue_neg =>
    [false, true].flatMap (fun has_green_neg =>
      [false, true].map (fun has_red_neg => (has_red_neg, has_green_neg, has_blue_neg))))

/-- One piece of an octant name (src/octant.py lines 63-68). -/
def octant_piece (negativity : Bool) (name : String) : String :=
  name ++ (if negativity then "-" else "+")

/-- Embeds `Octant._name` (src/octant.py lines 63-68). -/
def octant_name_with (key : OctantKey) (channel_names : List String) (spacer : String) : String :=
  String.intercalate spacer
    (([key.1, key.2.1, key.2.2].zip channel_names).map (fun kn => octant_piece kn.1 kn.2))

/-- Embeds `Octant.label` (src/octant.py lines 73-74). -/
def octant_label (key : OctantKey) : String :=
  "oct_" ++ octant_name_with key ["r", "g", "b"] ""

/-- The slice of an OpenImageIO `ImageSpec` that the core reads. -/
structure ImgSpec where
  channelnames : List String

/-- Embeds the per-pixel membership test of `Octant._ix_for_octant`
(src/octant.py lines 76-81): a channel whose key entry is true must be
strictly negative, otherwise non-negative, and all three conditions are
conjoined. -/
def inOctant (key : OctantKey) (p : Pixel) : Bool :=
  (if key.1 then decide (p.1 < 0) else decide (0 ≤ p.1)) &&
    ((if key.2.1 then decide (p.2.1 < 0) else decide (0 ≤ p.2.1)) &&
      (if key.2.2 then decide (p.2.2 < 0) else decide (0 ≤ p.2.2)))

/-- Embeds `self._to_first_octant_scalars = [-1 if e else 1 for e in
octant_key]` (src/octant.py line 96). -/
def to_first_octant_scalars (key : OctantKey) : ℚ × ℚ × ℚ :=
  ((if key.1 then -1 else 1), (if key.2.1 then -1 else 1), (if key.2.2 then -1 else 1))

/-- Embeds the channelwise multiplication `img_in_octant *=
self._to_first_octant_scalars` (src/octant.py line 107) on one pixel. -/
def reflect (key : OctantKey) (p : Pixel) : Pixel :=
  (p.1 * (to_first_octant_scalars key).1,
   p.2.1 * (to_first_octant_scalars key).2.1,
   p.2.2 * (to_first_octant_scalars key).2.2)

/-- `np.linspace(start, stop, num)`: `num` evenly spaced points including both
endpoints (evaluated here in exact rational arithmetic; the source requests
half-float precision, a rounding detail the claims do not depend on). -/
def linspace (start stop : ℚ) (num : ℕ) : List ℚ :=
  if num ≤ 1 then List.replicate num start
  else (List.range num).map (fun i : ℕ => start + (stop - start) * (i : ℚ) / ((num : ℚ) - 1))

/-- The exponent list of `Octant._log10_edges` (src/octant.py lines 83-91),
including its `if not num_bins` default (Python treats both `None` and `0` as
falsy; a zero `num_bins` falls back to `1 + max_exp - min_exp`). -/
def log10_edge_exponents (min_exp max_exp : ℤ) (num_bins : ℤ) : List ℚ :=
  linspace (min_exp : ℚ) (max_exp : ℚ)
    (if num_bins = 0 then (1 + max_exp - min_exp).toNat else num_bins.toNat)

/-- Embeds the full edge array of `Octant._log10_edges` (src/octant.py lines
83-91): a zero anchor, then `10 ** linspace(min_exp, max_exp, num_bins)`, then
the half-float maximum anchor. -/
noncomputable def log10_edges (min_exp max_exp num_bins : ℤ) : List ℝ :=
  (0 : ℝ) :: ((log10_edge_exponents min_exp max_exp num_bins).map
    (fun q : ℚ => (10 : ℝ) ^ (q : ℝ))) ++ [(65504 : ℝ)]

/-- `np.histogramdd` bin membership along one axis: bin `j` is the half-open
interval `[edges[j], edges[j+1])`, except the rightmost bin, which is
closed. -/
def histBin (edges : List ℝ) (v : ℝ) (j : ℕ) : Prop :=
  j + 1 < edges.length ∧ edges.getD j 0 ≤ v ∧
    (if j + 2 = edges.length then v ≤ edges.getD (j + 1) 0 else v < edges.getD (j + 1) 0)

/-- Membership of a (reflected) pixel in one cell of the 3-D cubelet
histogram built by `Octant._bin` (src/octant.py lines 104-108) via
`np.histogramdd` with the same edge array on all three axes. -/
def histCell (edges : List ℝ) (p : Pixel) (cell : ℕ × ℕ × ℕ) : Prop :=
  histBin edges ((p.1 : ℚ) : ℝ) cell.1 ∧ histBin edges ((p.2.1 : ℚ) : ℝ) cell.2.1 ∧
    histBin edges ((p.2.2 : ℚ) : ℝ) cell.2.2

/-- The array fed to `np.histogramdd` by `Octant._bin` (src/octant.py lines
104-108): the member pixels (`img_array[octant_ix]`, a copy), multiplied
channelwise by the reflection scalars.  The boolean-mask indexing copies, so
the original image is left untouched. -/
def octant_bin_input (key : OctantKey) (img : List Pixel) : List Pixel :=
  (img.filter (fun p => inOctant key p)).map (reflect key)

/-- The pixels the Octant's Register Set examines during
`Octant.tally` (src/octant.py lines 110-114): `img_array` under the
membership mask, with the original (unreflected) channel values. -/
def octant_register_input (key : OctantKey) (img : List Pixel) : List Pixel :=
  maskedPixels img (img.map (fun p => inOctant key p))

/-- State of an `Octant` (src/octant.py lines 93-102).  The 3-D histogram
array built by `_bin` is modelled by the `histCell` relation over
`log10_edges` rather than stored, since its real-valued edges are not
finitely representable; all counting state is kept here. -/
structure Octant where
  octant_key : OctantKey
  scalars : ℚ × ℚ × ℚ
  bin_min_exp : ℤ
  bin_max_exp : ℤ
  num_bins : ℤ
  edge_exponents : List ℚ
  samples_in_octant : ℕ
  registers : Registers

/-- Embeds `Octant.__init__` (src/octant.py lines 93-102). -/
def Octant.init (spec : ImgSpec) (key : OctantKey) (bin_min_exp bin_max_exp num_bins : ℤ) : Octant :=
  { octant_key := key
    scalars := to_first_octant_scalars key
    bin_min_exp := bin_min_exp
    bin_max_exp := bin_max_exp
    num_bins := num_bins
    edge_exponents := log10_edge_exponents bin_min_exp bin_max_exp num_bins
    samples_in_octant := 0
    registers := Registers.init ("registers for octant " ++ octant_label key)
      (octant_label key) spec.channelnames }

/-- Embeds `Octant.tally` (src/octant.py lines 110-114): compute the
membership mask, record `samples_in_octant = np.sum(mask)`, bin the reflected
member pixels (see `octant_bin_input` / `histCell`), and tally the registers
against the original image under the mask. -/
def Octant.tally (o : Octant) (img : List Pixel) : Octant :=
  { o with
    samples_in_octant := (img.map (fun p => inOctant o.octant_key p)).count true
    registers := o.registers.tally img (img.map (fun p => inOctant o.octant_key p)) }

/-- State of a `FrameC18n` (src/frame_c18n.py lines 21-40): one overall
Register Set and the dictionary of Octants (kept in `Octant.keys` order). -/
structure FrameC18n where
  overall_registers : Registers
  octants : List Octant

/-- The `if not num_bins: num_bins = 1 + bin_max_exp - bin_min_exp` default
of `FrameC18n.__init__` (src/frame_c18n.py lines 22-23); Python treats both
`None` and `0` as falsy. -/
def frame_resolved_num_bins (bin_min_exp bin_max_exp : ℤ) (num_bins : Option ℤ) : ℤ :=
  match num_bins with
  | none => 1 + bin_max_exp - bin_min_exp
  | some k => if k = 0 then 1 + bin_max_exp - bin_min_exp else k

/-- The successfully constructed frame characterization: one overall Register
Set, and one Octant per key in `Octant.keys` — all 8 of them — sharing the
one bin configuration (src/frame_c18n.py lines 36-40). -/
def FrameC18n.initOk (spec : ImgSpec) (bin_min_exp bin_max_exp : ℤ) (num_bins : Option ℤ) : FrameC18n :=
  { overall_registers := Registers.init "registers for entire image" "overall" spec.channelnames
    octants := Octant.keys.map (fun k =>
      Octant.init spec k bin_min_exp bin_max_exp
        (frame_resolved_num_bins bin_min_exp bin_max_exp num_bins)) }

/-- Embeds `FrameC18n.__init__` (src/frame_c18n.py lines 21-40): if the
image-decoding collaborator (`ImageInput.open`) signals failure by returning
`None`, construction raises `FileNotFoundError` before any register or octant
exists; otherwise it builds the overall Register Set and the Octants. -/
def FrameC18n.init (decoded : Option ImgSpec) (bin_min_exp bin_max_exp : ℤ) (num_bins : Option ℤ) :
    Except String FrameC18n :=
  match decoded with
  | none => .error "FileNotFoundError: could not read image"
  | some spec => .ok (FrameC18n.initOk spec bin_min_exp bin_max_exp num_bins)

/-- Embeds `FrameC18n.tally` (src/frame_c18n.py lines 42-46): the overall
Register Set is tallied with an all-true mask, then every Octant tallies the
same pixel array. -/
def FrameC18n.tally (fc : FrameC18n) (img : List Pixel) : FrameC18n :=
  { fc with
    overall_registers := fc.overall_registers.tally img (List.replicate img.length true)
    octants := fc.octants.map (fun o => o.tally img) }

/-- The sign pattern of a pixel: which channels are strictly negative. -/
def key_of (p : Pixel) : OctantKey :=
  (decide (p.1 < 0), decide (p.2.1 < 0), decide (p.2.2 < 0))

/-- Whether an octant key is the all-false ("no channel negative") key. -/
def is_all_false_key : OctantKey → Bool
  | (false, false, false) => true
  | _ => false

theorem list_sum_set_succ (l : List ℕ) (j : ℕ) (h : j < l.length) :
    (l.set j (l.getD j 0 + 1)).sum = l.sum + 1 := by
  induction l generalizing j with
  | nil => simp at h
  | cons a t ih =>
    cases j with
    | zero =>
      simp [List.getD_cons_zero]
      omega
    | succ k =>
      simp only [List.length_cons, Nat.succ_lt_succ_iff] at h
      simp only [List.set_cons_succ, List.getD_cons_succ, List.sum_cons]
      rw [ih k h]
      omega

theorem add_entry_counter_sum (b b' : LogBins) (lv : ℚ) (r : Option ℤ)
    (h : b.add_entry lv = .ok (b', r)) : b'.counter_sum = b.counter_sum + 1 := by
  unfold LogBins.add_entry at h
  split at h
  · simp only [Except.ok.injEq, Prod.mk.injEq] at h
    obtain ⟨hb, -⟩ := h
    subst hb
    simp only [LogBins.counter_sum]
    omega
  · split at h
    · simp only [Except.ok.injEq, Prod.mk.injEq] at h
      obtain ⟨hb, -⟩ := h
      subst hb
      simp only [LogBins.counter_sum]
      omega
    · split at h
      · rename_i new_bins hp
        simp only [Except.ok.injEq, Prod.mk.injEq] at h
        obtain ⟨hb, -⟩ := h
        subst hb
        unfold pyIncAt at hp
        split at hp
        · rename_i hrange
          simp only [Option.some.injEq] at hp
          subst hp
          simp only [LogBins.counter_sum]
          rw [list_sum_set_succ]
          · omega
          · omega
        · exact absurd hp (by simp)
      · exact absurd h (by simp)

theorem process_counter_sum (lvs : List ℚ) (b bN : LogBins)
    (h : b.process lvs = .ok bN) : bN.counter_sum = b.counter_sum + lvs.length := by
  induction lvs generalizing b with
  | nil =>
    unfold LogBins.process at h
    simp only [Except.ok.injEq] at h
    simp [← h]
  | cons lv rest ih =>
    unfold LogBins.process at h
    rcases ha : b.add_entry lv with e | br
    · rw [ha] at h; exact absurd h (by simp)
    · rw [ha] at h
      obtain ⟨b', r⟩ := br
      have := ih b' h
      have hstep := add_entry_counter_sum b b' lv r ha
      simp only [List.length_cons]
      omega

/-- Claim C1: for every LogBin instance and every finite sequence of
`add_entry` calls made on it after construction, the overflow counter plus the
underflow counter plus the sum of all per-bin counts equals the number of
`add_entry` calls made (each call increments exactly one of overflow,
underflow, or a single bin). -/
theorem c1_logbins_counter_invariant (log_max log_min : ℚ) (num_bins : ℤ)
    (b0 bN : LogBins) (lvs : List ℚ)
    (hinit : LogBins.init log_max log_min num_bins = .ok b0)
    (hproc : b0.process lvs = .ok bN) :
    bN.counter_sum = lvs.length := by
  have h0 : b0.counter_sum = 0 := by
    unfold LogBins.init at hinit
    split at hinit
    · exact absurd hinit (by simp)
    · simp only [Except.ok.injEq] at hinit
      rw [← hinit]
      simp [LogBins.counter_sum]
  have := process_counter_sum lvs b0 bN hproc
  omega

theorem rat_floor_eq_int_floor (q : ℚ) : q.floor = ⌊q⌋ :=
  (Rat.floor_def' q).trans Rat.floor_def.symm

theorem lerp_bounds (lv lmin lmax : ℚ) (n : ℕ) (hmin : lmin < lv) (hmax : lv ≤ lmax)
    (hn : 0 < n) : 0 ≤ lerp lv lmax lmin 0 (n : ℚ) ∧ lerp lv lmax lmin 0 (n : ℚ) < (n : ℚ) := by
  have hd : lmin - lmax < 0 := by nlinarith
  have hnq : (0 : ℚ) < (n : ℚ) := by exact_mod_cast hn
  unfold lerp
  constructor
  · rw [zero_add]
    exact div_nonneg_iff.mpr (Or.inr ⟨by nlinarith, by nlinarith⟩)
  · rw [zero_add, div_lt_iff_of_neg hd]
    nlinarith

/-- Claim C2: `add_entry` on a LogBin with at least one bin behaves exactly as
the claim describes: overflow above `max_exponent`, underflow at or below
`min_exponent`, and otherwise the floored linear interpolation from the
reversed domain `[max_exponent, min_exponent]` onto `[0, num_bins]` (with the
exact-`num_bins` clamp), incrementing that bin and returning its index. -/
theorem c2_add_entry_matches_claim (b : LogBins) (lv : ℚ) (hn : 0 < b.bins.length) :
    b.add_entry lv = b.add_entry_claim lv := by
  unfold LogBins.add_entry LogBins.add_entry_claim
  split
  · rfl
  · split
    · rfl
    · rename_i hgt hle
      have hmax : lv ≤ b.log_max := not_lt.mp hgt
      have hmin : b.log_min < lv := not_le.mp hle
      obtain ⟨h0, hL⟩ := lerp_bounds lv b.log_min b.log_max b.bins.length hmin hmax hn
      have hixv : b.ix_for_value lv = lerp lv b.log_max b.log_min 0 (b.bins.length : ℚ) := by
        unfold LogBins.ix_for_value
        rw [if_neg (ne_of_lt hL)]
      rw [hixv, rat_floor_eq_int_floor]
      have hfl0 : 0 ≤ ⌊lerp lv b.log_max b.log_min 0 (b.bins.length : ℚ)⌋ :=
        Int.floor_nonneg.mpr h0
      have hfln : ⌊lerp lv b.log_max b.log_min 0 (b.bins.length : ℚ)⌋ < (b.bins.length : ℤ) :=
        Int.floor_lt.mpr (by exact_mod_cast hL)
      have hpy : pyIncAt b.bins ⌊lerp lv b.log_max b.log_min 0 (b.bins.length : ℚ)⌋ =
          some (b.bins.set (⌊lerp lv b.log_max b.log_min 0 (b.bins.length : ℚ)⌋).toNat
            (b.bins.getD (⌊lerp lv b.log_max b.log_min 0 (b.bins.length : ℚ)⌋).toNat 0 + 1)) := by
        unfold pyIncAt pyWrapIx
        rw [if_neg (not_lt.mpr hfl0)]
        rw [if_pos ⟨hfl0, hfln⟩]
      rw [hpy]
      have hne : ⌊lerp lv b.log_max b.log_min 0 (b.bins.length : ℚ)⌋ ≠ (b.bins.length : ℤ) := by
        omega
      rw [if_neg hne]

theorem c2_add_entry_matches_claim_witness :
    (⟨2, -4, 0, 0, [0, 0, 0]⟩ : LogBins).add_entry 3 =
      (⟨2, -4, 0, 0, [0, 0, 0]⟩ : LogBins).add_entry_claim 3 :=
  c2_add_entry_matches_claim ⟨2, -4, 0, 0, [0, 0, 0]⟩ 3 (by decide)

/-- Claim C8 counterexample: LogBin construction performs no validation.
`LogBins(2, 2, 4)` (so `min_exponent = max_exponent = 2`) and
`LogBins(2, -4, 0)` (so `num_bins = 0`) both construct successfully instead of
failing with an invalid-bin-configuration error. -/
theorem c8_counterexample :
    LogBins.init 2 2 4 = .ok ⟨2, 2, 0, 0, [0, 0, 0, 0]⟩ ∧
    LogBins.init 2 (-4) 0 = .ok ⟨2, -4, 0, 0, []⟩ := by
  constructor <;> decide

/-- Claim C8 as amended: LogBin construction fails only when `num_bins` is
negative (numpy rejects a negative array dimension); `num_bins = 0` and
`min_exponent ≥ max_exponent` are accepted without any error. -/
theorem c8_amended_init_fails_only_on_negative_num_bins (log_max log_min : ℚ) (num_bins : ℤ) :
    (∃ b, LogBins.init log_max log_min num_bins = .ok b) ↔ 0 ≤ num_bins := by
  constructor
  · rintro ⟨b, hb⟩
    unfold LogBins.init at hb
    split at hb
    · exact absurd hb (by simp)
    · rename_i h
      omega
  · intro h
    refine ⟨⟨log_max, log_min, 0, 0, List.replicate num_bins.toNat 0⟩, ?_⟩
    unfold LogBins.init
    rw [if_neg (by omega)]

/-- Claim C9: `bin_bounds` returns the inverse-interpolated interval for a
valid index, fails with a range error for an index outside `[0, num_bins)`,
and any log-magnitude strictly inside the returned interval routes back into
bin `ix` on a subsequent `add_entry` (the source interval is the image of
these two exponents under the strictly monotone map `10 ** _`, so membership
strictly between the value bounds is equivalent to the log-magnitude lying
strictly between the exponents). -/
theorem c9_bin_bounds_round_trip (b : LogBins) (ix : ℤ) (lv : ℚ) :
    (0 ≤ ix ∧ ix < (b.bins.length : ℤ) →
       b.bin_bounds ix = .ok (b.value_for_ix (ix : ℚ), b.value_for_ix ((ix : ℚ) + 1))) ∧
    (¬(0 ≤ ix ∧ ix < (b.bins.length : ℤ)) → b.bin_bounds ix = .error "AssertionError") ∧
    (0 ≤ ix ∧ ix < (b.bins.length : ℤ) →
       b.value_for_ix ((ix : ℚ) + 1) < lv → lv < b.value_for_ix (ix : ℚ) →
       ∃ b', b.add_entry lv = .ok (b', some ix)) := by
  refine ⟨fun h => ?_, fun h => ?_, fun hrange hub hlb => ?_⟩
  · unfold LogBins.bin_bounds
    rw [if_pos h]
  · unfold LogBins.bin_bounds
    rw [if_neg h]
  · obtain ⟨hix0, hixn⟩ := hrange
    have hN : (0 : ℚ) < (b.bins.length : ℚ) := by
      have : (0 : ℤ) < (b.bins.length : ℤ) := by omega
      exact_mod_cast this
    have hvfi : ∀ q : ℚ, b.value_for_ix q =
        b.log_max + (b.log_min - b.log_max) * q / (b.bins.length : ℚ) := by
      intro q
      unfold LogBins.value_for_ix lerp
      ring
    rw [hvfi] at hub hlb
    have hixq0 : (0 : ℚ) ≤ (ix : ℚ) := by exact_mod_cast hix0
    have hixqn : (ix : ℚ) + 1 ≤ (b.bins.length : ℚ) := by
      have : (ix : ℤ) + 1 ≤ (b.bins.length : ℤ) := by omega
      exact_mod_cast this
    have hub' : (b.log_min - b.log_max) * ((ix : ℚ) + 1) < (lv - b.log_max) * (b.bins.length : ℚ) := by
      have h1 : (b.log_min - b.log_max) * ((ix : ℚ) + 1) / (b.bins.length : ℚ) < lv - b.log_max := by
        linarith [hub]
      exact (div_lt_iff₀ hN).mp h1
    have hlb' : (lv - b.log_max) * (b.bins.length : ℚ) < (b.log_min - b.log_max) * (ix : ℚ) := by
      have h1 : lv - b.log_max < (b.log_min - b.log_max) * (ix : ℚ) / (b.bins.length : ℚ) := by
        linarith [hlb]
      exact (lt_div_iff₀ hN).mp h1
    have hD : b.log_min - b.log_max < 0 := by nlinarith [hub', hlb']
    have hmax : lv ≤ b.log_max := by
      nlinarith [hlb', mul_nonneg (neg_nonneg.mpr hD.le) hixq0, hN]
    have hmin : b.log_min < lv := by
      nlinarith [hub', mul_nonneg (neg_nonneg.mpr hD.le) (sub_nonneg.mpr hixqn), hN]
    have hL : lerp lv b.log_max b.log_min 0 (b.bins.length : ℚ) =
        (b.bins.length : ℚ) * (lv - b.log_max) / (b.log_min - b.log_max) := by
      unfold lerp
      ring
    have hLgt : (ix : ℚ) < lerp lv b.log_max b.log_min 0 (b.bins.length : ℚ) := by
      rw [hL, lt_div_iff_of_neg hD]
      nlinarith [hlb']
    have hLlt : lerp lv b.log_max b.log_min 0 (b.bins.length : ℚ) < (ix : ℚ) + 1 := by
      rw [hL, div_lt_iff_of_neg hD]
      nlinarith [hub']
    have hixv : b.ix_for_value lv = lerp lv b.log_max b.log_min 0 (b.bins.length : ℚ) := by
      unfold LogBins.ix_for_value
      rw [if_neg (ne_of_lt (lt_of_lt_of_le hLlt hixqn))]
    have hfl : (b.ix_for_value lv).floor = ix := by
      rw [hixv, rat_floor_eq_int_floor]
      rw [Int.floor_eq_iff]
      constructor
      · exact hLgt.le
      · exact_mod_cast hLlt
    have hpy : pyIncAt b.bins ix =
        some (b.bins.set ix.toNat (b.bins.getD ix.toNat 0 + 1)) := by
      unfold pyIncAt pyWrapIx
      rw [if_neg (not_lt.mpr hix0), if_pos ⟨hix0, hixn⟩]
    refine ⟨{ b with bins := b.bins.set ix.toNat (b.bins.getD ix.toNat 0 + 1) }, ?_⟩
    unfold LogBins.add_entry
    rw [if_neg (not_lt.mpr hmax), if_neg (not_le.mpr hmin), hfl, hpy]

theorem c9_bin_bounds_round_trip_witness :
    ∃ b', (⟨2, -4, 0, 0, [0, 0, 0]⟩ : LogBins).add_entry (-1) = Except.ok (b', some 1) := by
  have h := (c9_bin_bounds_round_trip ⟨2, -4, 0, 0, [0, 0, 0]⟩ 1 (-1)).2.2
  exact h (by decide) (by norm_num [LogBins.value_for_ix, lerp])
    (by norm_num [LogBins.value_for_ix, lerp])

theorem c1_logbins_counter_invariant_witness :
    (⟨2, -4, 1, 1, [0, 0, 0]⟩ : LogBins).counter_sum = 2 :=
  c1_logbins_counter_invariant 2 (-4) 3 ⟨2, -4, 0, 0, [0, 0, 0]⟩
    ⟨2, -4, 1, 1, [0, 0, 0]⟩ [3, -5] (by decide) (by decide)

/-- Claim C7: when the image cannot be decoded (the decoding collaborator,
`ImageInput.open`, signals failure), Frame Characterization construction
fails with the source-unavailable error.  No `FrameC18n` value is produced,
so no register, octant-count or histogram state exists, and `tally` — a
method of the never-created object — cannot have begun. -/
theorem c7_source_unavailable_no_partial_state (bin_min_exp bin_max_exp : ℤ)
    (num_bins : Option ℤ) :
    FrameC18n.init none bin_min_exp bin_max_exp num_bins =
      .error "FileNotFoundError: could not read image" :=
  rfl

/-- Claim C10 (first two conjuncts): each of the four latch extremum
functions returns the distinguished no-value result `none` when the examined
values contain nothing satisfying its qualification; last conjunct: a
register tally always completes, setting every latch's values-examined count
to the number of masked pixels and its held value to its extremum function's
result on the masked channel values. -/
theorem c10_empty_qualification_latches_none (vs : List ℚ) (d dom : String)
    (names : List String) (img : List Pixel) (inv_mask : List Bool) :
    ((∀ v ∈ vs, ¬(half_min_q < v ∧ v < 0)) →
       biggest_strictly_negative_non_clipping_value vs = none ∧
       tiniest_strictly_negative_non_clipping_value vs = none) ∧
    ((∀ v ∈ vs, ¬(0 < v ∧ v < half_max_q)) →
       tiniest_strictly_positive_non_clipping_value vs = none ∧
       biggest_strictly_positive_non_clipping_value vs = none) ∧
    ((Registers.init d dom names).tally img inv_mask).latches =
      (Registers.init d dom names).latches.map (fun l =>
        { l.latch_max_channel_value img inv_mask with
            values_examined_count := inv_mask.count true }) := by
  refine ⟨fun h => ?_, fun h => ?_, rfl⟩
  · have hf : vs.filter strictly_negative_but_not_clipped_inverse_mask = [] := by
      rw [List.filter_eq_nil_iff]
      intro v hv
      simp only [strictly_negative_but_not_clipped_inverse_mask, Bool.and_eq_true,
        decide_eq_true_eq]
      exact fun hc => h v hv hc
    constructor
    · simp [biggest_strictly_negative_non_clipping_value, hf]
    · simp [tiniest_strictly_negative_non_clipping_value, hf]
  · have hf : vs.filter strictly_positive_but_not_clipped_inverse_mask = [] := by
      rw [List.filter_eq_nil_iff]
      intro v hv
      simp only [strictly_positive_but_not_clipped_inverse_mask, Bool.and_eq_true,
        decide_eq_true_eq]
      exact fun hc => h v hv hc
    constructor
    · simp [tiniest_strictly_positive_non_clipping_value, hf]
    · simp [biggest_strictly_positive_non_clipping_value, hf]

theorem c10_empty_qualification_latches_none_witness :
    (biggest_strictly_negative_non_clipping_value [0] = none ∧
     tiniest_strictly_negative_non_clipping_value [0] = none) ∧
    (tiniest_strictly_positive_non_clipping_value [0] = none ∧
     biggest_strictly_positive_non_clipping_value [0] = none) :=
  ⟨(c10_empty_qualification_latches_none [0] "d" "o" ["R"] [(0, 0, 0)] [true]).1 (by decide),
   (c10_empty_qualification_latches_none [0] "d" "o" ["R"] [(0, 0, 0)] [true]).2.1 (by decide)⟩

/-- Claim C6: reflection multiplies each channel by -1 exactly when that
channel's key entry is true (else by +1); it yields an all-non-negative
triple for every member pixel; for key (true, false, true) the raw pixel
(-2, 3, -5) is binned as (2, 3, 5) while the Octant's Register Set input
keeps the original unreflected values (-2, 3, -5).  The boolean-mask
indexing in `Octant._bin` copies, so the reflection never mutates the
original image the registers read. -/
theorem c6_reflection_bins_registers_unreflected (key : OctantKey) (p : Pixel) :
    (reflect key p = ((if key.1 then -p.1 else p.1),
                      (if key.2.1 then -p.2.1 else p.2.1),
                      (if key.2.2 then -p.2.2 else p.2.2))) ∧
    (inOctant key p = true →
       0 ≤ (reflect key p).1 ∧ 0 ≤ (reflect key p).2.1 ∧ 0 ≤ (reflect key p).2.2) ∧
    octant_bin_input (true, false, true) [(-2, 3, -5)] = [(2, 3, 5)] ∧
    octant_register_input (true, false, true) [(-2, 3, -5)] = [(-2, 3, -5)] := by
  obtain ⟨a, b, c⟩ := key
  refine ⟨?_, fun h => ?_, ?_, ?_⟩
  · cases a <;> cases b <;> cases c <;>
      simp [reflect, to_first_octant_scalars, mul_neg_one]
  · cases a <;> cases b <;> cases c <;>
      · simp [inOctant] at h
        simp only [reflect, to_first_octant_scalars]
        norm_num
        refine ⟨?_, ?_, ?_⟩ <;> nlinarith [h.1, h.2.1, h.2.2]
  · norm_num [octant_bin_input, inOctant, reflect, to_first_octant_scalars]
  · norm_num [octant_register_input, maskedPixels, inOctant]

theorem c6_reflection_bins_registers_unreflected_witness :
    0 ≤ (reflect (true, false, true) (-2, 3, -5)).1 ∧
    0 ≤ (reflect (true, false, true) (-2, 3, -5)).2.1 ∧
    0 ≤ (reflect (true, false, true) (-2, 3, -5)).2.2 :=
  (c6_reflection_bins_registers_unreflected (true, false, true) (-2, 3, -5)).2.1 (by decide)

/-- Claim C4 counterexample: Frame Characterization construction iterates
over all of `Octant.keys`, instantiating 8 Octants — including one for the
all-false key (no channel negative) — not 7. -/
theorem c4_counterexample :
    FrameC18n.init (some ⟨["R", "G", "B"]⟩) (-4) 2 (some 7) =
      .ok (FrameC18n.initOk ⟨["R", "G", "B"]⟩ (-4) 2 (some 7)) ∧
    (FrameC18n.initOk ⟨["R", "G", "B"]⟩ (-4) 2 (some 7)).octants.length = 8 ∧
    ((FrameC18n.initOk ⟨["R", "G", "B"]⟩ (-4) 2 (some 7)).octants.map
      (fun o => o.octant_key)) = Octant.keys ∧
    (false, false, false) ∈ Octant.keys :=
  ⟨rfl, rfl, rfl, by decide⟩

/-- Claim C4 as amended: construction instantiates exactly 8 Octants — one
for every octant key, the all-false key included — all sharing the one
LogBin configuration, plus one overall Register Set. -/
theorem c4_amended_eight_octants_share_config (spec : ImgSpec) (mn mx : ℤ) (nb : Option ℤ) :
    FrameC18n.init (some spec) mn mx nb = .ok (FrameC18n.initOk spec mn mx nb) ∧
    (FrameC18n.initOk spec mn mx nb).octants.map (fun o => o.octant_key) = Octant.keys ∧
    (FrameC18n.initOk spec mn mx nb).octants.map
        (fun o => (o.bin_min_exp, o.bin_max_exp, o.num_bins)) =
      List.replicate 8 (mn, mx, frame_resolved_num_bins mn mx nb) ∧
    (FrameC18n.initOk spec mn mx nb).overall_registers =
      Registers.init "registers for entire image" "overall" spec.channelnames :=
  ⟨rfl, rfl, rfl, rfl⟩

theorem decide_nonneg_eq (x : ℚ) : decide (0 ≤ x) = !(decide (x < 0)) := by
  by_cases h : x < 0
  · simp [h, not_le.mpr h]
  · simp [h, not_lt.mp h]

theorem inOctant_iff_key_of (key : OctantKey) (p : Pixel) :
    inOctant key p = true ↔ key = key_of p := by
  obtain ⟨a, b, c⟩ := key
  rcases h1 : decide (p.1 < 0) with _ | _ <;>
    rcases h2 : decide (p.2.1 < 0) with _ | _ <;>
      rcases h3 : decide (p.2.2 < 0) with _ | _ <;>
        cases a <;> cases b <;> cases c <;>
          simp [inOctant, key_of, decide_nonneg_eq, h1, h2, h3, Prod.ext_iff]

theorem inOctant_eq_decide (key : OctantKey) (p : Pixel) :
    inOctant key p = decide (key = key_of p) := by
  by_cases hk : key = key_of p
  · rw [(inOctant_iff_key_of key p).mpr hk, decide_eq_true hk]
  · have hne : inOctant key p ≠ true := fun hc => hk ((inOctant_iff_key_of key p).mp hc)
    rw [Bool.eq_false_iff.mpr hne, decide_eq_false hk]

theorem count_true_map (f : Pixel → Bool) (l : List Pixel) :
    (l.map f).count true = l.countP f := by
  induction l with
  | nil => rfl
  | cons p t ih =>
    cases hp : f p <;> simp [List.count_cons, List.countP_cons, hp, ih]

theorem keys_countP_key_match (p : Pixel) :
    Octant.keys.countP (fun k => inOctant k p) = 1 := by
  have hc : ∀ k ∈ Octant.keys,
      ((fun k => inOctant k p) k = true ↔ (fun k => decide (k = key_of p)) k = true) :=
    fun k _ => by
      show inOctant k p = true ↔ decide (k = key_of p) = true
      rw [inOctant_eq_decide k p]
  rw [List.countP_congr hc]
  rcases h1 : decide (p.1 < 0) with _ | _ <;>
    rcases h2 : decide (p.2.1 < 0) with _ | _ <;>
      rcases h3 : decide (p.2.2 < 0) with _ | _ <;>
        simp [Octant.keys, key_of, h1, h2, h3, List.countP_cons]

theorem octant_counts_partition (img : List Pixel) :
    (Octant.keys.map (fun k => img.countP (fun p => inOctant k p))).sum = img.length := by
  induction img with
  | nil => simp [Octant.keys]
  | cons p t ih =>
    have hstep : ∀ keys : List OctantKey,
        (keys.map (fun k => List.countP (fun q => inOctant k q) (p :: t))).sum =
        (keys.map (fun k => List.countP (fun q => inOctant k q) t)).sum +
          keys.countP (fun k => inOctant k p) := by
      intro keys
      induction keys with
      | nil => simp
      | cons k ks ihk =>
        simp only [List.map_cons, List.sum_cons]
        rw [ihk, List.countP_cons (fun q => inOctant k q) p t,
          List.countP_cons (fun kk => inOctant kk p) k ks]
        cases hk : inOctant k p <;> norm_num <;> omega
    rw [hstep, ih, keys_countP_key_match]
    simp

/-- Claim C3 counterexample: the code tallies all 8 octants (the all-false
octant included), so for the one-pixel image [(1, 1, 1)] — whose pixel has no
negative channel — the sum of `samples_in_octant` over the octants is already
1, and adding the count of pixels with no negative channel gives 2, not the
total pixel count 1. -/
theorem c3_counterexample :
    ((((FrameC18n.initOk ⟨["R", "G", "B"]⟩ (-4) 2 (some 7)).tally [(1, 1, 1)]).octants.map
        (fun o => o.samples_in_octant)).sum
      + ([((1 : ℚ), (1 : ℚ), (1 : ℚ))] : List Pixel).countP
          (fun q => inOctant (false, false, false) q) = 2) ∧
    ([((1 : ℚ), (1 : ℚ), (1 : ℚ))] : List Pixel).length = 1 ∧
    FrameC18n.init (some ⟨["R", "G", "B"]⟩) (-4) 2 (some 7) =
      .ok (FrameC18n.initOk ⟨["R", "G", "B"]⟩ (-4) 2 (some 7)) :=
  ⟨by decide, rfl, rfl⟩

/-- Claim C3 as amended: membership masks of distinct octant keys are
mutually exclusive, and the sum of `samples_in_octant` over the seven octants
whose key has at least one negative channel, plus the count of pixels with no
negative channel (which is exactly the all-false octant's tally), equals the
total pixel count. -/
theorem c3_amended_octant_partition (k1 k2 : OctantKey) (p : Pixel) (spec : ImgSpec)
    (mn mx : ℤ) (nb : Option ℤ) (img : List Pixel) :
    (k1 ≠ k2 → inOctant k1 p = true → inOctant k2 p = false) ∧
    ((((FrameC18n.initOk spec mn mx nb).tally img).octants.filter
        (fun o => !(is_all_false_key o.octant_key))).map
          (fun o => o.samples_in_octant)).sum
      + img.countP (fun q => inOctant (false, false, false) q) = img.length := by
  constructor
  · intro hne h1
    refine Bool.eq_false_iff.mpr (fun hc => hne ?_)
    exact ((inOctant_iff_key_of k1 p).mp h1).trans ((inOctant_iff_key_of k2 p).mp hc).symm
  · have h8 := octant_counts_partition img
    simp [Octant.keys] at h8
    simp [FrameC18n.tally, FrameC18n.initOk, Octant.tally, Octant.init, Octant.keys,
      is_all_false_key, count_true_map]
    omega

theorem c3_amended_octant_partition_witness :
    inOctant (false, false, false) (-1, 1, 1) = false ∧
    ((((FrameC18n.initOk ⟨["R"]⟩ 1 3 (some 3)).tally [(1, 1, 1)]).octants.filter
        (fun o => !(is_all_false_key o.octant_key))).map
          (fun o => o.samples_in_octant)).sum
      + ([((1 : ℚ), (1 : ℚ), (1 : ℚ))] : List Pixel).countP
          (fun q => inOctant (false, false, false) q) = 1 :=
  ⟨(c3_amended_octant_partition (true, false, false) (false, false, false) (-1, 1, 1)
      ⟨["R"]⟩ 1 3 (some 3) [(1, 1, 1)]).1 (by decide) (by decide),
   (c3_amended_octant_partition (true, false, false) (false, false, false) (-1, 1, 1)
      ⟨["R"]⟩ 1 3 (some 3) [(1, 1, 1)]).2⟩

theorem linspace_length (a b : ℚ) (n : ℕ) : (linspace a b n).length = n := by
  unfold linspace
  split <;> simp

theorem linspace_cons (a b : ℚ) (n : ℕ) (h : 1 ≤ n) :
    ∃ t, linspace a b n = a :: t := by
  unfold linspace
  split
  · rename_i h1
    have hn1 : n = 1 := by omega
    subst hn1
    exact ⟨[], rfl⟩
  · rename_i h1
    obtain ⟨m, rfl⟩ : ∃ m, n = m + 1 := ⟨n - 1, by omega⟩
    refine ⟨((List.range m).map Nat.succ).map
      (fun i : ℕ => a + (b - a) * (i : ℚ) / (((m + 1 : ℕ) : ℚ) - 1)), ?_⟩
    rw [List.range_succ_eq_map, List.map_cons, List.map_map]
    congr 1
    push_cast
    ring

/-- Claim C5 counterexample: with bin configuration `(min_exp, max_exp,
num_bins) = (1, 3, 3)`, the member pixel `(-5, 20, 200)` of octant
`(true, false, false)` reflects to `(5, 20, 200)`; its first channel value 5
satisfies the LogBins underflow condition (`log10 5 ≤ 1`, i.e. `5 ≤ 10^1`),
so under the claim it would receive no valid bin index and contribute to no
cubelet cell — yet `Octant._bin`'s histogram, whose edge array starts with
the zero anchor, places the pixel in cell `(0, 1, 2)` (channel 0 in the
anchor bin `[0, 10)`).  The Octant never consults a LogBins instance.  The
registers do still see the original unreflected pixel. -/
theorem c5_counterexample :
    inOctant (true, false, false) (-5, 20, 200) = true ∧
    reflect (true, false, false) (-5, 20, 200) = (5, 20, 200) ∧
    octant_bin_input (true, false, false) [(-5, 20, 200)] = [(5, 20, 200)] ∧
    ((5 : ℝ) ≤ (10 : ℝ) ^ ((1 : ℤ) : ℝ)) ∧
    histCell (log10_edges 1 3 3) (5, 20, 200) (0, 1, 2) ∧
    octant_register_input (true, false, false) [(-5, 20, 200)] = [(-5, 20, 200)] := by
  have e1 : (10 : ℝ) ^ (((1 : ℚ) : ℝ)) = 10 := by
    rw [show (((1 : ℚ) : ℝ)) = 1 by norm_num, Real.rpow_one]
  have e2 : (10 : ℝ) ^ (((2 : ℚ) : ℝ)) = 100 := by
    rw [show (((2 : ℚ) : ℝ)) = ((2 : ℕ) : ℝ) by norm_num, Real.rpow_natCast]
    norm_num
  have e3 : (10 : ℝ) ^ (((3 : ℚ) : ℝ)) = 1000 := by
    rw [show (((3 : ℚ) : ℝ)) = ((3 : ℕ) : ℝ) by norm_num, Real.rpow_natCast]
    norm_num
  have hexp : log10_edge_exponents 1 3 3 = [1, 2, 3] := by
    have hr : List.range 3 = [0, 1, 2] := rfl
    have ht3 : Int.toNat 3 = 3 := rfl
    unfold log10_edge_exponents linspace
    norm_num [ht3, hr]
  have hedges : log10_edges 1 3 3 = [0, 10, 100, 1000, 65504] := by
    unfold log10_edges
    rw [hexp]
    simp only [List.map_cons, List.map_nil, e1, e2, e3]
    rfl
  refine ⟨by decide, ?_, ?_, ?_, ?_, ?_⟩
  · norm_num [reflect, to_first_octant_scalars]
  · norm_num [octant_bin_input, inOctant, reflect, to_first_octant_scalars]
  · rw [show (((1 : ℤ) : ℝ)) = 1 by norm_num, Real.rpow_one]
    norm_num
  · simp only [histCell, histBin, hedges]
    norm_num
  · norm_num [octant_register_input, maskedPixels, inOctant]

/-- Claim C5 as amended: a member pixel whose channel magnitude falls below
`10^min_exp` (in LogBins terms: the channel underflows the configured
exponent range) still contributes to the cubelet histogram — it lands in the
zero-anchor bin (axis index 0) that `_log10_edges` prepends — rather than
being excluded; and the Octant's Register Set is tallied with the original
unreflected pixel array under the membership mask. -/
theorem c5_amended_anchor_bins (mn mx num_bins : ℤ) (v : ℝ) (spec : ImgSpec)
    (key : OctantKey) (img : List Pixel) :
    (1 ≤ num_bins → 0 ≤ v → v < (10 : ℝ) ^ ((mn : ℤ) : ℝ) →
       histBin (log10_edges mn mx num_bins) v 0) ∧
    ((Octant.init spec key mn mx num_bins).tally img).registers =
      (Registers.init ("registers for octant " ++ octant_label key) (octant_label key)
        spec.channelnames).tally img (img.map (fun p => inOctant key p)) := by
  constructor
  · intro hnb hv0 hvlt
    have hne : num_bins ≠ 0 := by omega
    have h1n : 1 ≤ num_bins.toNat := by omega
    obtain ⟨t, ht⟩ := linspace_cons (mn : ℚ) (mx : ℚ) num_bins.toNat h1n
    have hedges : log10_edges mn mx num_bins =
        0 :: (10 : ℝ) ^ (((mn : ℚ)) : ℝ) ::
          (t.map (fun q : ℚ => (10 : ℝ) ^ (q : ℝ)) ++ [(65504 : ℝ)]) := by
      unfold log10_edges log10_edge_exponents
      rw [if_neg hne, ht]
      simp
    rw [hedges]
    refine ⟨?_, ?_, ?_⟩
    · simp
    · simpa using hv0
    · rw [if_neg (by simp)]
      have hcast : (((mn : ℚ)) : ℝ) = ((mn : ℤ) : ℝ) := by push_cast; rfl
      simpa [hcast] using hvlt
  · rfl

theorem c5_amended_anchor_bins_witness :
    histBin (log10_edges 1 3 3) 5 0 ∧
    ((Octant.init ⟨["R"]⟩ (true, false, false) 1 3 3).tally []).registers =
      (Registers.init ("registers for octant " ++ octant_label (true, false, false))
        (octant_label (true, false, false)) (⟨["R"]⟩ : ImgSpec).channelnames).tally []
        (([] : List Pixel).map (fun p => inOctant (true, false, false) p)) :=
  ⟨(c5_amended_anchor_bins 1 3 3 5 ⟨["R"]⟩ (true, false, false) []).1 (by decide)
      (by norm_num)
      (by rw [show (((1 : ℤ) : ℝ)) = 1 by norm_num, Real.rpow_one]; norm_num),
   (c5_amended_anchor_bins 1 3 3 5 ⟨["R"]⟩ (true, false, false) []).2⟩
